import Mathlib

set_option maxRecDepth 100000

/-!
Verification development for the streaming response aggregator of the
`ApiService` client (files `geminiservices.ts` and its reader-based rewrite).

The development shallowly embeds both implementation variants:

* variant A — the XMLHttpRequest implementation in `geminiservices.ts`:
  `processBuffer` (double-newline framing over the cumulative `responseText`),
  per-message `data:`-line selection, JSON parsing with shape validation,
  an internal FIFO queue bridged to an async generator (`createGenerator`),
  and the `finally`-block teardown that aborts the XHR when still active;

* variant B — the reader-based implementation (`runQueryStream` of the
  rewrite): single-newline framing, per-line `parseChunk`, and a
  flush-on-close of the trailing buffer.

Strings are modelled as `List Char`.  `JSON.parse` is modelled by an
executable JSON parser (`jsonParse`) returning `Except` to reflect that the
JavaScript original throws on malformed input.  All definitions are fuel- or
structurally-recursive so that concrete inputs evaluate by `decide`/`rfl`.
-/

/-- Convert a string literal to the `List Char` representation used throughout. -/
def cs (s : String) : List Char := s.toList

/-- Left brace character (written via its code to keep literals simple). -/
def lbrace : Char := Char.ofNat 123

/-- Right brace character. -/
def rbrace : Char := Char.ofNat 125

/-- `startsWithL s p` holds when `p` is an initial run of `s`
(models JavaScript `String.prototype.startsWith`). -/
def startsWithL (s pat : List Char) : Bool :=
  match pat, s with
  | [], _ => true
  | _ :: _, [] => false
  | p :: ps, c :: cr => c = p && startsWithL cr ps

/-- Whitespace recognised by JavaScript `String.prototype.trim`
(ASCII whitespace, NBSP and the BOM; the remaining Unicode space
separators do not occur in this protocol). -/
def jsTrimWs (c : Char) : Bool :=
  c == ' ' || c == '\t' || c == '\n' || c == '\r' ||
  c == Char.ofNat 11 || c == Char.ofNat 12 || c == Char.ofNat 160 ||
  c == Char.ofNat 0xfeff

/-- Model of JavaScript `String.prototype.trim`. -/
def trimJs (s : List Char) : List Char :=
  ((s.dropWhile jsTrimWs).reverse.dropWhile jsTrimWs).reverse

/-- Model of JavaScript `String.prototype.split('\n')`: the list of
newline-separated pieces, keeping empty pieces (as `split` does). -/
def splitNl : List Char → List (List Char)
  | [] => [[]]
  | c :: r =>
    if c = '\n' then [] :: splitNl r
    else
      match splitNl r with
      | [] => [[c]]
      | h :: t => (c :: h) :: t

/-! ### Generic incremental frame decoder

Both variants maintain a pending buffer and repeatedly split off the text
before the first occurrence of a boundary.  `Framer` packages the
boundary-search function together with the two facts the chunking argument
needs: the remainder is shorter than the input, and the first boundary of
`s ++ t` is the first boundary of `s` whenever `s` has one. -/

structure Framer where
  brk : List Char → Option (List Char × List Char)
  brk_len : ∀ s m r, brk s = some (m, r) → r.length < s.length
  brk_app : ∀ s m r t, brk s = some (m, r) → brk (s ++ t) = some (m, r ++ t)

/-- Fuel-driven repeated splitting; with fuel above the input length this is
the exact loop `while ((boundary = buffer.indexOf(sep)) !== -1)` of the
source: collect every record before a boundary, return the remainder. -/
def drainFuel (F : Framer) : Nat → List Char → List (List Char) × List Char
  | 0, s => ([], s)
  | n + 1, s =>
    match F.brk s with
    | none => ([], s)
    | some p =>
      let q := drainFuel F n p.2
      (p.1 :: q.1, q.2)

/-- The frame-decoding loop applied to one buffer content. -/
def drainF (F : Framer) (s : List Char) : List (List Char) × List Char :=
  drainFuel F (s.length + 1) s

theorem drainFuel_congr (F : Framer) :
    ∀ n m s, s.length < n → s.length < m → drainFuel F n s = drainFuel F m s := by
  intro n
  induction n with
  | zero => intro m s h _; exact absurd h (Nat.not_lt_zero _)
  | succ n ih =>
    intro m s hn hm
    cases m with
    | zero => exact absurd hm (Nat.not_lt_zero _)
    | succ m =>
      show (match F.brk s with
            | none => ([], s)
            | some p => ((p.1 :: (drainFuel F n p.2).1, (drainFuel F n p.2).2))) =
           (match F.brk s with
            | none => ([], s)
            | some p => ((p.1 :: (drainFuel F m p.2).1, (drainFuel F m p.2).2)))
      cases h : F.brk s with
      | none => rfl
      | some p =>
        have hlen := F.brk_len s p.1 p.2 h
        have h1 : p.2.length < n := by
          have := Nat.lt_of_lt_of_le hlen (Nat.le_of_lt_succ hn)
          exact this
        have h2 : p.2.length < m := by
          have := Nat.lt_of_lt_of_le hlen (Nat.le_of_lt_succ hm)
          exact this
        simp only [ih m p.2 h1 h2]

/-- One-step unfolding of `drainF`. -/
theorem drainF_eq (F : Framer) (s : List Char) :
    drainF F s =
      match F.brk s with
      | none => ([], s)
      | some p => (p.1 :: (drainF F p.2).1, (drainF F p.2).2) := by
  show drainFuel F (s.length + 1) s = _
  show (match F.brk s with
        | none => ([], s)
        | some p => ((p.1 :: (drainFuel F s.length p.2).1, (drainFuel F s.length p.2).2))) = _
  cases h : F.brk s with
  | none => rfl
  | some p =>
    have hlen := F.brk_len s p.1 p.2 h
    have : drainFuel F s.length p.2 = drainFuel F (p.2.length + 1) p.2 :=
      drainFuel_congr F s.length (p.2.length + 1) p.2 hlen (Nat.lt_succ_self _)
    simp only [this, drainF]

theorem drainF_no_brk_aux (F : Framer) :
    ∀ (n : Nat) (s : List Char), s.length ≤ n → F.brk (drainF F s).2 = none := by
  intro n
  induction n with
  | zero =>
    intro s hs
    rw [drainF_eq]
    cases h : F.brk s with
    | none => simp only [h]
    | some p =>
      have := F.brk_len s p.1 p.2 h
      omega
  | succ n ih =>
    intro s hs
    rw [drainF_eq]
    cases h : F.brk s with
    | none => simp only [h]
    | some p =>
      have hlen := F.brk_len s p.1 p.2 h
      simp only [h]
      exact ih p.2 (by omega)

/-- The remainder left by the loop holds no further boundary. -/
theorem drainF_no_brk (F : Framer) (s : List Char) : F.brk (drainF F s).2 = none :=
  drainF_no_brk_aux F s.length s (Nat.le_refl _)

theorem drainF_append_aux (F : Framer) :
    ∀ (n : Nat) (b : List Char), b.length ≤ n → ∀ f,
      drainF F (b ++ f) =
        ((drainF F b).1 ++ (drainF F ((drainF F b).2 ++ f)).1,
         (drainF F ((drainF F b).2 ++ f)).2) := by
  intro n
  induction n with
  | zero =>
    intro b hb f
    cases h : F.brk b with
    | none =>
      have hbeq : drainF F b = ([], b) := by rw [drainF_eq, h]
      rw [hbeq]
      simp
    | some p =>
      have := F.brk_len b p.1 p.2 h
      omega
  | succ n ih =>
    intro b hb f
    cases h : F.brk b with
    | none =>
      have hbeq : drainF F b = ([], b) := by rw [drainF_eq, h]
      rw [hbeq]
      simp
    | some p =>
      have hlen := F.brk_len b p.1 p.2 h
      have hbeq : drainF F b = (p.1 :: (drainF F p.2).1, (drainF F p.2).2) := by
        rw [drainF_eq, h]
      have happ : F.brk (b ++ f) = some (p.1, p.2 ++ f) := F.brk_app b p.1 p.2 f h
      have hbf : drainF F (b ++ f) =
          (p.1 :: (drainF F (p.2 ++ f)).1, (drainF F (p.2 ++ f)).2) := by
        rw [drainF_eq, happ]
      rw [hbf, hbeq, ih p.2 (by omega) f]
      simp

/-- Chunking lemma: draining `b ++ f` first drains `b`, then drains the
remainder of `b` extended by `f`. -/
theorem drainF_append (F : Framer) (b f : List Char) :
    drainF F (b ++ f) =
      ((drainF F b).1 ++ (drainF F ((drainF F b).2 ++ f)).1,
       (drainF F ((drainF F b).2 ++ f)).2) :=
  drainF_append_aux F b.length b (Nat.le_refl _) f

/-- Incremental feeding of a fragment list through the decoder, exactly as the
source does: append each arriving fragment to the buffer, drain, repeat.
Returns all records emitted (in order) and the final buffer. -/
def collect (F : Framer) : List Char → List (List Char) → List (List Char) × List Char
  | buf, [] => ([], buf)
  | buf, f :: fs =>
    let p := drainF F (buf ++ f)
    let q := collect F p.2 fs
    (p.1 ++ q.1, q.2)

/-- Feeding fragments one by one emits exactly the records of the
concatenation: the decoder is insensitive to fragmentation. -/
theorem collect_join (F : Framer) (buf : List Char) (fs : List (List Char))
    (hbuf : F.brk buf = none) : collect F buf fs = drainF F (buf ++ fs.flatten) := by
  induction fs generalizing buf with
  | nil =>
    have : drainF F buf = ([], buf) := by rw [drainF_eq, hbuf]
    simp [collect, this]
  | cons f fs ih =>
    show (let p := drainF F (buf ++ f)
          let q := collect F p.2 fs
          (p.1 ++ q.1, q.2)) = drainF F (buf ++ (f :: fs).flatten)
    have hrem : F.brk (drainF F (buf ++ f)).2 = none := drainF_no_brk F (buf ++ f)
    have hjoin : buf ++ (f :: fs).flatten = (buf ++ f) ++ fs.flatten := by
      simp [List.flatten]
    rw [hjoin, drainF_append F (buf ++ f) fs.flatten]
    simp only [ih (drainF F (buf ++ f)).2 hrem]

/-! ### The two concrete framers -/

/-- First-`'\n'` splitter (variant B: `buffer.indexOf('\n')` loop). -/
def breakNl : List Char → Option (List Char × List Char)
  | [] => none
  | c :: r =>
    if c = '\n' then some ([], r)
    else (breakNl r).map (fun p => (c :: p.1, p.2))

/-- First-`"\n\n"` splitter (variant A: `buffer.indexOf('\n\n')` loop). -/
def breakBB : List Char → Option (List Char × List Char)
  | [] => none
  | [_] => none
  | c :: d :: r =>
    if c = '\n' ∧ d = '\n' then some ([], r)
    else (breakBB (d :: r)).map (fun p => (c :: p.1, p.2))

theorem breakNl_len : ∀ s m r, breakNl s = some (m, r) → r.length < s.length := by
  intro s
  induction s with
  | nil => intro m r h; simp [breakNl] at h
  | cons c cr ih =>
    intro m r h
    rw [breakNl] at h
    by_cases hc : c = '\n'
    · rw [if_pos hc] at h
      cases h
      simp
    · rw [if_neg hc] at h
      cases hb : breakNl cr with
      | none => rw [hb] at h; simp at h
      | some p =>
        rw [hb] at h
        simp only [Option.map_some'] at h
        cases h
        have := ih p.1 p.2 (by rw [hb])
        simp
        omega

theorem breakNl_app : ∀ s m r t, breakNl s = some (m, r) →
    breakNl (s ++ t) = some (m, r ++ t) := by
  intro s
  induction s with
  | nil => intro m r t h; simp [breakNl] at h
  | cons c cr ih =>
    intro m r t h
    rw [breakNl] at h
    rw [List.cons_append, breakNl]
    by_cases hc : c = '\n'
    · rw [if_pos hc] at h
      cases h
      rw [if_pos hc]
    · rw [if_neg hc] at h
      rw [if_neg hc]
      cases hb : breakNl cr with
      | none => rw [hb] at h; simp at h
      | some p =>
        rw [hb] at h
        simp only [Option.map_some'] at h
        cases h
        rw [ih p.1 p.2 t (by rw [hb])]
        rfl

/-- The single-newline framer. -/
def frNl : Framer := ⟨breakNl, breakNl_len, breakNl_app⟩

theorem breakBB_len : ∀ s m r, breakBB s = some (m, r) → r.length < s.length := by
  intro s
  induction s with
  | nil => intro m r h; simp [breakBB] at h
  | cons c cr ih =>
    intro m r h
    cases cr with
    | nil => simp [breakBB] at h
    | cons d dr =>
      rw [breakBB] at h
      by_cases hcd : c = '\n' ∧ d = '\n'
      · rw [if_pos hcd] at h
        cases h
        simp only [List.length_cons]
        omega
      · rw [if_neg hcd] at h
        cases hb : breakBB (d :: dr) with
        | none => rw [hb] at h; simp at h
        | some p =>
          rw [hb] at h
          simp only [Option.map_some'] at h
          cases h
          have hlt := ih p.1 p.2 (by rw [hb])
          simp only [List.length_cons] at hlt ⊢
          omega

theorem breakBB_app : ∀ s m r t, breakBB s = some (m, r) →
    breakBB (s ++ t) = some (m, r ++ t) := by
  intro s
  induction s with
  | nil => intro m r t h; simp [breakBB] at h
  | cons c cr ih =>
    intro m r t h
    cases cr with
    | nil => simp [breakBB] at h
    | cons d dr =>
      rw [breakBB] at h
      rw [show (c :: d :: dr) ++ t = c :: d :: (dr ++ t) from rfl, breakBB]
      by_cases hcd : c = '\n' ∧ d = '\n'
      · rw [if_pos hcd] at h
        cases h
        rw [if_pos hcd]
      · rw [if_neg hcd] at h
        rw [if_neg hcd]
        cases hb : breakBB (d :: dr) with
        | none => rw [hb] at h; simp at h
        | some p =>
          rw [hb] at h
          simp only [Option.map_some'] at h
          cases h
          have happ := ih p.1 p.2 t (by rw [hb])
          rw [show d :: (dr ++ t) = (d :: dr) ++ t from rfl, happ]
          rfl

/-- The double-newline framer. -/
def frBB : Framer := ⟨breakBB, breakBB_len, breakBB_app⟩

example : drainF frBB (cs "a\n\nbc\n\nrest") = ([cs "a", cs "bc"], cs "rest") := by decide
example : drainF frNl (cs "a\nb\nrest") = ([cs "a", cs "b"], cs "rest") := by decide
example : collect frBB [] [cs "a\n", cs "\nb", cs "c\n\n"] = ([cs "a", cs "bc"], []) := by decide
example : trimJs (cs "  x y\n") = cs "x y" := by decide
example : splitNl (cs "a\nb\n") = [cs "a", cs "b", cs ""] := by decide

/-! ### JSON value model and parser

`JSON.parse` is modelled by an executable parser over `List Char`, returning
`Except` (the JavaScript original throws a `SyntaxError`).  Numbers keep
their source lexeme: no theorem below inspects numeric values beyond
zero-ness, which the lexeme determines, so float semantics are not needed. -/

inductive Js where
  | null
  | bool (b : Bool)
  | num (lex : List Char)
  | str (s : List Char)
  | arr (xs : List Js)
  | obj (kvs : List (List Char × Js))

/-- JSON whitespace (as accepted between tokens by `JSON.parse`). -/
def jsonWs (c : Char) : Bool :=
  c == ' ' || c == '\t' || c == '\n' || c == '\r'

def dropWs (s : List Char) : List Char := s.dropWhile jsonWs

def hexDigitVal (c : Char) : Option Nat :=
  if '0' ≤ c ∧ c ≤ '9' then some (c.toNat - 48)
  else if 'a' ≤ c ∧ c ≤ 'f' then some (c.toNat - 87)
  else if 'A' ≤ c ∧ c ≤ 'F' then some (c.toNat - 55)
  else none

/-- Simple escape codes inside JSON strings. -/
def escChar (e : Char) : Option Char :=
  if e = '"' then some '"'
  else if e = '\\' then some '\\'
  else if e = '/' then some '/'
  else if e = 'b' then some (Char.ofNat 8)
  else if e = 'f' then some (Char.ofNat 12)
  else if e = 'n' then some '\n'
  else if e = 'r' then some '\r'
  else if e = 't' then some '\t'
  else none

/-- Parse the body of a JSON string after the opening quote.  Returns the
decoded content and the input remaining after the closing quote.  Lone
surrogate escapes (representable in JavaScript strings but not as Unicode
scalars) are rejected; they cannot occur in this protocol. -/
def pStringAux : Nat → List Char → Except (List Char) (List Char × List Char)
  | 0, _ => .error (cs "fuel exhausted")
  | _ + 1, [] => .error (cs "unterminated string")
  | n + 1, c :: rest =>
    if c = '"' then .ok ([], rest)
    else if c = '\\' then
      match rest with
      | [] => .error (cs "unterminated escape")
      | e :: rest2 =>
        if e = 'u' then
          match rest2 with
          | h1 :: h2 :: h3 :: h4 :: rest3 =>
            match hexDigitVal h1, hexDigitVal h2, hexDigitVal h3, hexDigitVal h4 with
            | some a, some b, some c2, some d =>
              let v := ((a * 16 + b) * 16 + c2) * 16 + d
              if v < 0xd800 ∨ (0xdfff < v ∧ v < 0x110000) then
                (pStringAux n rest3).map (fun p => (Char.ofNat v :: p.1, p.2))
              else .error (cs "surrogate escape")
            | _, _, _, _ => .error (cs "invalid unicode escape")
          | _ => .error (cs "invalid unicode escape")
        else
          match escChar e with
          | some ch => (pStringAux n rest2).map (fun p => (ch :: p.1, p.2))
          | none => .error (cs "invalid escape")
    else if c.toNat < 32 then .error (cs "control character in string")
    else (pStringAux n rest).map (fun p => (c :: p.1, p.2))

def takeDigits (s : List Char) : List Char × List Char :=
  (s.takeWhile Char.isDigit, s.dropWhile Char.isDigit)

/-- Integer part of a JSON number: `0`, or a nonzero digit followed by
digits (JSON forbids redundant leading zeros). -/
def pIntPart : List Char → Except (List Char) (List Char × List Char)
  | [] => .error (cs "digit expected")
  | c :: r =>
    if c = '0' then .ok (['0'], r)
    else if c.isDigit then .ok (c :: (takeDigits r).1, (takeDigits r).2)
    else .error (cs "digit expected")

def pFracPart : List Char → Except (List Char) (List Char × List Char)
  | [] => .ok ([], [])
  | c :: r =>
    if c = '.' then
      if (takeDigits r).1 = [] then .error (cs "digit expected after decimal point")
      else .ok ('.' :: (takeDigits r).1, (takeDigits r).2)
    else .ok ([], c :: r)

def pExpPart : List Char → Except (List Char) (List Char × List Char)
  | [] => .ok ([], [])
  | c :: r =>
    if c = 'e' ∨ c = 'E' then
      match r with
      | [] => .error (cs "digit expected in exponent")
      | d :: r2 =>
        if d = '+' ∨ d = '-' then
          if (takeDigits r2).1 = [] then .error (cs "digit expected in exponent")
          else .ok (c :: d :: (takeDigits r2).1, (takeDigits r2).2)
        else
          if (takeDigits r).1 = [] then .error (cs "digit expected in exponent")
          else .ok (c :: (takeDigits r).1, (takeDigits r).2)
    else .ok ([], c :: r)

/-- Parse a JSON number starting at a `-` or digit; returns its lexeme. -/
def pNumber (s : List Char) : Except (List Char) (List Char × List Char) :=
  let sgn : List Char × List Char :=
    match s with
    | '-' :: r => (['-'], r)
    | _ => ([], s)
  match pIntPart sgn.2 with
  | .error e => .error e
  | .ok ip =>
    match pFracPart ip.2 with
    | .error e => .error e
    | .ok fp =>
      match pExpPart fp.2 with
      | .error e => .error e
      | .ok ep => .ok (sgn.1 ++ ip.1 ++ fp.1 ++ ep.1, ep.2)

/-- Strip an expected literal (`true`, `false`, `null`) from the input. -/
def stripLit : List Char → List Char → Option (List Char)
  | [], s => some s
  | _ :: _, [] => none
  | l :: ls, c :: r => if c = l then stripLit ls r else none

mutual

/-- Parse one JSON value (after skipping leading whitespace).  The fuel only
bounds nesting/iteration; `jsonParse` supplies enough for any input. -/
def pValue : Nat → List Char → Except (List Char) (Js × List Char)
  | 0, _ => .error (cs "fuel exhausted")
  | fuel + 1, s =>
    match dropWs s with
    | [] => .error (cs "unexpected end of JSON input")
    | c :: r =>
      if c = '"' then (pStringAux (r.length + 1) r).map (fun p => (Js.str p.1, p.2))
      else if c = lbrace then pObjRest fuel r
      else if c = '[' then pArrRest fuel r
      else if c = 't' ∨ c = 'f' ∨ c = 'n' then
        match stripLit (cs "true") (c :: r) with
        | some rest => .ok (Js.bool true, rest)
        | none =>
          match stripLit (cs "false") (c :: r) with
          | some rest => .ok (Js.bool false, rest)
          | none =>
            match stripLit (cs "null") (c :: r) with
            | some rest => .ok (Js.null, rest)
            | none => .error (cs "unexpected token")
      else if c = '-' ∨ c.isDigit then (pNumber (c :: r)).map (fun p => (Js.num p.1, p.2))
      else .error (cs "unexpected token")

/-- Parse the inside of an array, right after `[`. -/
def pArrRest : Nat → List Char → Except (List Char) (Js × List Char)
  | 0, _ => .error (cs "fuel exhausted")
  | fuel + 1, s =>
    match dropWs s with
    | ']' :: r => .ok (Js.arr [], r)
    | other => pArrElems fuel other []

def pArrElems : Nat → List Char → List Js → Except (List Char) (Js × List Char)
  | 0, _, _ => .error (cs "fuel exhausted")
  | fuel + 1, s, acc =>
    match pValue fuel s with
    | .error e => .error e
    | .ok p =>
      match dropWs p.2 with
      | ',' :: r => pArrElems fuel r (acc ++ [p.1])
      | ']' :: r => .ok (Js.arr (acc ++ [p.1]), r)
      | _ => .error (cs "expected comma or closing bracket")

/-- Parse the inside of an object, right after the opening brace. -/
def pObjRest : Nat → List Char → Except (List Char) (Js × List Char)
  | 0, _ => .error (cs "fuel exhausted")
  | fuel + 1, s =>
    match dropWs s with
    | [] => .error (cs "unexpected end of JSON input")
    | c :: r =>
      if c = rbrace then .ok (Js.obj [], r)
      else pObjMembers fuel (c :: r) []

def pObjMembers : Nat → List Char → List (List Char × Js) →
    Except (List Char) (Js × List Char)
  | 0, _, _ => .error (cs "fuel exhausted")
  | fuel + 1, s, acc =>
    match dropWs s with
    | '"' :: r =>
      match pStringAux (r.length + 1) r with
      | .error e => .error e
      | .ok k =>
        match dropWs k.2 with
        | ':' :: r2 =>
          match pValue fuel r2 with
          | .error e => .error e
          | .ok p =>
            match dropWs p.2 with
            | ',' :: r3 => pObjMembers fuel r3 (acc ++ [(k.1, p.1)])
            | c :: r3 =>
              if c = rbrace then .ok (Js.obj (acc ++ [(k.1, p.1)]), r3)
              else .error (cs "expected comma or closing brace")
            | [] => .error (cs "unexpected end of JSON input")
        | _ => .error (cs "expected colon")
    | _ => .error (cs "expected string key")

end

/-- Model of `JSON.parse`: parse one value, allow trailing whitespace only. -/
def jsonParse (s : List Char) : Except (List Char) Js :=
  match pValue (3 * s.length + 16) s with
  | .error e => .error e
  | .ok p => if dropWs p.2 = [] then .ok p.1 else .error (cs "unexpected trailing characters")

/-- Property lookup on a parsed object: JavaScript keeps the last duplicate
key, and property access on a non-object JSON value (string, number,
boolean, array) yields `undefined` for the keys used by this client. -/
def lastAssoc : List (List Char × Js) → List Char → Option Js
  | [], _ => none
  | kv :: r, key =>
    match lastAssoc r key with
    | some v => some v
    | none => if kv.1 = key then some kv.2 else none

def jsGetField (v : Js) (key : List Char) : Option Js :=
  match v with
  | Js.obj kvs => lastAssoc kvs key
  | _ => none

/-- Zero-ness of a number lexeme (sign, dot and exponent do not matter:
the value is zero exactly when every mantissa digit is `0`). -/
def numIsZero (lex : List Char) : Bool :=
  (lex.takeWhile (fun c => c ≠ 'e' ∧ c ≠ 'E')).all
    (fun c => c = '0' ∨ c = '-' ∨ c = '.')

/-- JavaScript truthiness of a parsed JSON value. -/
def jsTruthy : Js → Bool
  | Js.null => false
  | Js.bool b => b
  | Js.num lex => !(numIsZero lex)
  | Js.str s => !(s.isEmpty)
  | Js.arr _ => true
  | Js.obj _ => true

def commaJoin : List (List Char) → List Char
  | [] => []
  | [x] => x
  | x :: xs => x ++ ',' :: commaJoin xs

mutual

/-- Template-literal stringification of a JSON value.  Only the string case
is relied on by any theorem; numbers render as their lexeme (a modelling
simplification of JavaScript float formatting). -/
def jsToText : Js → List Char
  | Js.null => cs "null"
  | Js.bool true => cs "true"
  | Js.bool false => cs "false"
  | Js.num lex => lex
  | Js.str s => s
  | Js.arr xs => commaJoin (jsToTextList xs)
  | Js.obj _ => cs "[object Object]"

/-- Array elements under stringification; `null` elements render empty. -/
def jsToTextList : List Js → List (List Char)
  | [] => []
  | Js.null :: xs => [] :: jsToTextList xs
  | x :: xs => jsToText x :: jsToTextList xs

end

example : jsonParse (cs "\x7b\"agent\":\"A\",\"response\":\"hi\"\x7d") =
    .ok (Js.obj [(cs "agent", Js.str (cs "A")), (cs "response", Js.str (cs "hi"))]) := by rfl
example : jsonParse (cs "null") = .ok Js.null := by rfl
example : (jsonParse (cs "data: x")).isOk = false := by rfl
example : (jsonParse (cs "[DONE]")).isOk = false := by rfl
example : jsonParse (cs " \x7b\"detail\": false\x7d ") = .ok (Js.obj [(cs "detail", Js.bool false)]) := by rfl
example : jsonParse (cs "\x7b\"output\":\x7b\"content\":\"42\"\x7d\x7d") =
    .ok (Js.obj [(cs "output", Js.obj [(cs "content", Js.str (cs "42"))])]) := by rfl
example : jsonParse (cs "[1, 2.5, -3e2]") =
    .ok (Js.arr [Js.num (cs "1"), Js.num (cs "2.5"), Js.num (cs "-3e2")]) := by rfl
example : (jsonParse (cs "01")).isOk = false := by rfl
example : jsonParse (cs "\"a\\nb\"") = .ok (Js.str (cs "a\nb")) := by rfl

/-! ### Event parser

`StreamEvent` is the typed unit of output (`{ agent, response }`).  The
try-block of both variants (`JSON.parse` plus shape validation) is modelled
by `evalChunk`, an `Except` computation: `JSON.parse` throws on malformed
input, and the property access `parsed.agent` throws a `TypeError` when the
parsed value is `null`.  The surrounding `catch` turns any such error into
no event (`catchChunk`). -/

structure StreamEvent where
  agent : List Char
  response : List Char
deriving DecidableEq, Repr

def jsIsNull : Js → Bool
  | Js.null => true
  | _ => false

/-- Shape validation `parsed.agent && typeof parsed.agent === 'string' &&
parsed.response && typeof parsed.response === 'string'`: both fields must be
present, strings, and truthy (hence non-empty). -/
def eventFields (v : Js) : Option StreamEvent :=
  match jsGetField v (cs "agent"), jsGetField v (cs "response") with
  | some (Js.str a), some (Js.str r) =>
    if a ≠ [] ∧ r ≠ [] then some (StreamEvent.mk a r) else none
  | _, _ => none

/-- The validation step of the try-block; property access on a parsed
`null` throws a `TypeError` (caught by the surrounding catch). -/
def validateJs (v : Js) : Except (List Char) (Option StreamEvent) :=
  if jsIsNull v then .error (cs "TypeError: cannot read properties of null")
  else .ok (eventFields v)

/-- Body of the try-block on a payload text: parse, then validate. -/
def evalChunk (t : List Char) : Except (List Char) (Option StreamEvent) :=
  match jsonParse t with
  | .error e => .error e
  | .ok v => validateJs v

/-- The catch: a thrown error is logged and yields no event. -/
def catchChunk (t : List Char) : Option StreamEvent :=
  match evalChunk t with
  | .ok r => r
  | .error _ => none

/-! #### Variant B: `parseChunk` (reader-based rewrite, lines 127-149) -/

/-- The prefix-stripping step of `parseChunk`: lines starting with exactly
`"data: "` (space included) lose those six characters and are trimmed;
all other lines are passed through unchanged. -/
def strippedOf (line : List Char) : List Char :=
  if startsWithL line (cs "data: ") then trimJs (line.drop 6) else line

/-- Empty payloads and the `[DONE]` sentinel yield no event; anything else
goes through the guarded parse. -/
def parsePayloadB (t : List Char) : Option StreamEvent :=
  if t = [] ∨ t = cs "[DONE]" then none else catchChunk t

/-- Model of `parseChunk(line)`. -/
def parseChunkB (line : List Char) : Option StreamEvent :=
  parsePayloadB (strippedOf line)

/-- `parseChunk` with its internal catch made explicit: the result is always
`.ok`, i.e. no exception escapes to the caller. -/
def parseChunkTryB (line : List Char) : Except (List Char) (Option StreamEvent) :=
  let t := strippedOf line
  if t = [] ∨ t = cs "[DONE]" then .ok none
  else
    match evalChunk t with
    | .ok r => .ok r
    | .error _ => .ok none

/-- The per-complete-line step of the reader loop (lines 102-114): trim the
line, skip it when empty, otherwise hand it to `parseChunk`. -/
def lineEventB (l : List Char) : Option StreamEvent :=
  let t := trimJs l
  if t = [] then none else parseChunkB t

/-- The whole decoding pipeline of the reader-based `runQueryStream` on a
fragment sequence followed by end-of-stream: all events from complete lines,
then — flush-on-close — the event of the leftover buffer, parsed untrimmed
by `parseChunk` when non-empty (lines 85-93). -/
def runStreamB (frags : List (List Char)) : List StreamEvent :=
  let p := collect frNl [] frags
  p.1.filterMap lineEventB ++ (if p.2 = [] then [] else (parseChunkB p.2).toList)

/-! #### Variant A: `processBuffer` message handling (lines 94-107) -/

/-- `message.split('\n').find(line => line.startsWith('data:'))`. -/
def dataLineA (msg : List Char) : Option (List Char) :=
  (splitNl msg).find? (fun l => startsWithL l (cs "data:"))

/-- Event extraction from one complete double-newline-delimited message:
take the first `data:`-prefixed line, drop six characters (one more than
the five-character prefix `data:`), trim, skip if empty, then parse inside
the try/catch.  There is no `[DONE]` handling in this variant. -/
def eventOfMessageA (msg : List Char) : Option StreamEvent :=
  match dataLineA msg with
  | none => none
  | some dl =>
    let jsonStr := trimJs (dl.drop 6)
    if jsonStr = [] then none
    else
      match evalChunk jsonStr with
      | .ok r => r
      | .error _ => none

/-- The decoding pipeline of the XHR `runQueryStream` on a fragment sequence
followed by `onload`: only complete `\n\n`-terminated messages produce
events; `onload` runs `processBuffer` once more (draining nothing new) and
enqueues the end marker, leaving any unterminated buffer tail unused. -/
def runStreamA (frags : List (List Char)) : List StreamEvent :=
  ((collect frBB [] frags).1).filterMap eventOfMessageA

example : parseChunkB (cs "data: \x7b\"agent\":\"A\",\"response\":\"hi\"\x7d") =
    some (StreamEvent.mk (cs "A") (cs "hi")) := by rfl
example : parseChunkB (cs "data:\x7b\"agent\":\"A\",\"response\":\"hi\"\x7d") = none := by rfl
example : parseChunkB (cs "\x7b\"agent\":\"A\",\"response\":\"hi\"\x7d") =
    some (StreamEvent.mk (cs "A") (cs "hi")) := by rfl
example : parseChunkB (cs "[DONE]") = none := by rfl
example : parseChunkB (cs "null") = none := by rfl
example : eventOfMessageA (cs "data: \x7b\"agent\":\"A\",\"response\":\"hi\"\x7d") =
    some (StreamEvent.mk (cs "A") (cs "hi")) := by rfl
example : eventOfMessageA (cs "data:\x7b\"agent\":\"A\",\"response\":\"hi\"\x7d") = none := by rfl
example : eventOfMessageA (cs "event: x\ndata: \x7b\"agent\":\"A\",\"response\":\"h\"\x7d") =
    some (StreamEvent.mk (cs "A") (cs "h")) := by rfl
example : runStreamA [cs "data: \x7b\"agent\":\"A\"", cs ",\"response\":\"hi\"\x7d\n\n"] =
    [StreamEvent.mk (cs "A") (cs "hi")] := by rfl
example : runStreamB [cs "data: \x7b\"agent\":\"A\"", cs ",\"response\":\"hi\"\x7d\n\n"] =
    [StreamEvent.mk (cs "A") (cs "hi")] := by rfl
example : runStreamA [cs "data: \x7b\"agent\":\"A\",\"response\":\"hi\"\x7d"] = [] := by rfl
example : runStreamB [cs "data: \x7b\"agent\":\"A\",\"response\":\"hi\"\x7d"] =
    [StreamEvent.mk (cs "A") (cs "hi")] := by rfl

/-! ### Single-shot request (`runQuery`) and the error-message path

Both the single-shot path and the streaming open path build the failure
message the same way: `errorData?.detail || <fallback>` where `errorData`
is `await response.json().catch(() => null)` and the fallback is the
status-derived string; the chosen value is interpolated into the prefix
template.  The `||` means a *falsy* `detail` (absent, `null`, `false`, `0`,
empty string) selects the fallback. -/

/-- The generic status-derived message. -/
def fallbackMsg (status : Nat) : List Char :=
  cs "HTTP error! status: " ++ (toString status).toList

/-- `errorData?.detail`: `none` when the body is not JSON or has no
`detail` member. -/
def detailJs (body : List Char) : Option Js :=
  match jsonParse body with
  | .error _ => none
  | .ok v => jsGetField v (cs "detail")

/-- The text interpolated after the prefix:
`errorData?.detail || fallback`. -/
def detailText (status : Nat) (body : List Char) : List Char :=
  match detailJs body with
  | some d => if jsTruthy d then jsToText d else fallbackMsg status
  | none => fallbackMsg status

/-- Message of the error thrown by `runQuery` on a non-ok response. -/
def invokeErrMsg (status : Nat) (body : List Char) : List Char :=
  cs "The Force is disturbed. API request failed: " ++ detailText status body

/-- Message thrown by the reader-based `runQueryStream` when the response is
not ok or has no streamable body. -/
def streamErrMsg (status : Nat) (body : List Char) : List Char :=
  cs "The Force is disturbed. API stream request failed: " ++ detailText status body

/-- `result?.output?.content` with optional chaining. -/
def outputContent (v : Js) : Option Js :=
  (jsGetField v (cs "output")).bind (fun o => jsGetField o (cs "content"))

/-- Model of `runQuery`'s handling of the response: the outcome is a
function of the response's ok-flag, status and body text.  A non-ok
response throws the detail-or-fallback message; a body that is not JSON
makes `response.json()` reject (rethrown by the catch); a missing or
non-string `output.content` throws the invalid-format error; otherwise the
content string is returned. -/
def runQueryModel (ok : Bool) (status : Nat) (body : List Char) :
    Except (List Char) (List Char) :=
  if ok then
    match jsonParse body with
    | .error _ => .error (cs "SyntaxError: response body is not valid JSON")
    | .ok v =>
      match outputContent v with
      | some (Js.str s) => .ok s
      | _ => .error (cs "Invalid response format from the AI. The \x27output.content\x27 field is missing or not a string.")
  else .error (invokeErrMsg status body)

/-- Model of the reader-based `runQueryStream`'s response check
(`!response.ok || !response.body`). -/
def streamOpenModel (ok hasBody : Bool) (status : Nat) (body : List Char) :
    Except (List Char) Unit :=
  if !ok || !hasBody then .error (streamErrMsg status body) else .ok ()

example : runQueryModel true 200 (cs "\x7b\"output\":\x7b\"content\":\"42\"\x7d\x7d") =
    .ok (cs "42") := by rfl
example : runQueryModel false 500 (cs "\x7b\"detail\":\"overloaded\"\x7d") =
    .error (cs "The Force is disturbed. API request failed: overloaded") := by rfl
example : runQueryModel false 500 (cs "oops not json") =
    .error (cs "The Force is disturbed. API request failed: HTTP error! status: 500") := by rfl
example : runQueryModel false 500 (cs "\x7b\"detail\":false\x7d") =
    .error (cs "The Force is disturbed. API request failed: HTTP error! status: 500") := by rfl

/-! ### Push-to-pull bridge of the XHR variant

The generator of `runQueryStream` (lines 58-171 of `geminiservices.ts`) is
modelled as a state machine over traces of externally observable steps:

* `prog t` — `xhr.onprogress` fires with `t` as the newly arrived text
  (the delta of `responseText`); `processBuffer` drains the buffer and
  `enqueueAndSignal` appends one queue item per valid event, in order;
* `load t` — `xhr.onload`: a final `processBuffer` over any remaining text,
  then the end marker is enqueued and the transfer is done
  (`readyState = 4`);
* `fail m` — `xhr.onerror`: an error item is enqueued;
* `next` — the consumer's pull: pops the queue head; a value is yielded
  (appended to `delivered`); the end marker or an error closes the
  generator, running the `finally` block;
* `ret` — the consumer abandons iteration (`generator.return()`), which
  runs the `finally` block once if the generator is still open.

The `finally` block (`cleanup`) aborts the XHR only while
`0 < readyState < 4`; abort moves the XHR to its done state and fires
`onabort`, which enqueues one more end marker.  Callbacks no longer fire
once the transfer is done (`rs = 4`).  `pushed` and `procText` are ghost
fields recording every enqueued event and every processed fragment. -/

inductive QItem where
  | val (e : StreamEvent)
  | fin
  | err (m : List Char)
deriving DecidableEq, Repr

structure Bridge where
  buf : List Char
  queue : List QItem
  closed : Bool
  rs : Nat
  aborts : Nat
  delivered : List StreamEvent
  pushed : List StreamEvent
  procText : List Char
deriving DecidableEq, Repr

def bridgeInit : Bridge := ⟨[], [], false, 1, 0, [], [], []⟩

inductive BStep where
  | prog (t : List Char)
  | load (t : List Char)
  | fail (m : List Char)
  | next
  | ret
deriving DecidableEq, Repr

/-- One `processBuffer` pass over newly arrived text: drain the buffer and
list the valid events of the completed messages, in order. -/
def newEvents (buf t : List Char) : List StreamEvent × List Char :=
  let p := drainF frBB (buf ++ t)
  (p.1.filterMap eventOfMessageA, p.2)

/-- The `finally` block: close the generator; abort the XHR exactly when it
is still active, which also fires `onabort` (enqueueing an end marker). -/
def cleanup (s : Bridge) : Bridge :=
  if 0 < s.rs ∧ s.rs < 4 then
    { s with closed := true, aborts := s.aborts + 1, rs := 4,
             queue := s.queue ++ [QItem.fin] }
  else { s with closed := true }

def bstep (s : Bridge) : BStep → Bridge
  | BStep.prog t =>
    if s.rs = 4 then s
    else
      let p := newEvents s.buf t
      { s with rs := 3, buf := p.2,
               queue := s.queue ++ p.1.map QItem.val,
               pushed := s.pushed ++ p.1,
               procText := s.procText ++ t }
  | BStep.load t =>
    if s.rs = 4 then s
    else
      let p := newEvents s.buf t
      { s with rs := 4, buf := p.2,
               queue := s.queue ++ p.1.map QItem.val ++ [QItem.fin],
               pushed := s.pushed ++ p.1,
               procText := s.procText ++ t }
  | BStep.fail m =>
    if s.rs = 4 then s
    else { s with rs := 4, queue := s.queue ++ [QItem.err m] }
  | BStep.next =>
    if s.closed then s
    else
      match s.queue with
      | [] => s
      | QItem.val e :: rest =>
        { s with queue := rest, delivered := s.delivered ++ [e] }
      | QItem.fin :: rest => cleanup { s with queue := rest }
      | QItem.err _ :: rest => cleanup { s with queue := rest }
  | BStep.ret => if s.closed then s else cleanup s

/-- Run the bridge over a trace of steps. -/
def brun (s : Bridge) (tr : List BStep) : Bridge := tr.foldl bstep s

/-- The values still buffered in the queue, in order. -/
def qVals (q : List QItem) : List StreamEvent :=
  q.filterMap (fun i => match i with | QItem.val e => some e | _ => none)

theorem brun_append (s : Bridge) (tr tr2 : List BStep) :
    brun s (tr ++ tr2) = brun (brun s tr) tr2 :=
  List.foldl_append bstep s tr tr2

theorem brun_cons (s : Bridge) (a : BStep) (tr : List BStep) :
    brun s (a :: tr) = brun (bstep s a) tr := rfl

/-- Reachable-state invariant of the bridge: the ready state stays in
`1..4`; a closed generator implies a done transfer; `abort` has run at most
once, only on a done transfer, and only as part of closing. -/
def bridgeInv (s : Bridge) : Prop :=
  0 < s.rs ∧ s.rs ≤ 4 ∧ (s.closed = true → s.rs = 4) ∧
  (s.aborts = 0 ∨ (s.aborts = 1 ∧ s.rs = 4)) ∧ (s.aborts ≠ 0 → s.closed = true)

theorem bridgeInv_init : bridgeInv bridgeInit := by
  refine ⟨?_, ?_, ?_, ?_, ?_⟩ <;> simp [bridgeInit]

theorem bridgeInv_cleanup (s : Bridge) (h : bridgeInv s) (hcl : s.closed = false) :
    bridgeInv (cleanup s) := by
  obtain ⟨h1, h2, h3, h4, h5⟩ := h
  have ha : s.aborts = 0 := by
    by_contra hne
    rw [h5 hne] at hcl
    exact Bool.noConfusion hcl
  unfold cleanup
  by_cases hg : 0 < s.rs ∧ s.rs < 4
  · rw [if_pos hg]
    exact ⟨by simp, by simp, fun _ => by simp, Or.inr ⟨by simp [ha], by simp⟩,
           fun _ => by simp⟩
  · rw [if_neg hg]
    have hrs4 : s.rs = 4 := by omega
    exact ⟨by simpa using h1, by simpa using h2, fun _ => by simpa using hrs4,
           by simpa using h4, fun _ => by simp⟩

theorem bridgeInv_step (s : Bridge) (a : BStep) (h : bridgeInv s) :
    bridgeInv (bstep s a) := by
  obtain ⟨h1, h2, h3, h4, h5⟩ := h
  cases a with
  | prog t =>
    rw [bstep]
    by_cases hrs : s.rs = 4
    · rw [if_pos hrs]; exact ⟨h1, h2, h3, h4, h5⟩
    · rw [if_neg hrs]
      have hcl : s.closed = false := by
        cases hcv : s.closed
        · rfl
        · exact absurd (h3 hcv) hrs
      have ha : s.aborts = 0 := by
        rcases h4 with h4 | h4
        · exact h4
        · exact absurd h4.2 hrs
      refine ⟨?_, ?_, ?_, ?_, ?_⟩ <;> simp [bridgeInv, hcl, ha]
  | load t =>
    rw [bstep]
    by_cases hrs : s.rs = 4
    · rw [if_pos hrs]; exact ⟨h1, h2, h3, h4, h5⟩
    · rw [if_neg hrs]
      have ha : s.aborts = 0 := by
        rcases h4 with h4 | h4
        · exact h4
        · exact absurd h4.2 hrs
      refine ⟨?_, ?_, ?_, ?_, ?_⟩ <;> simp [bridgeInv, ha]
  | fail m =>
    rw [bstep]
    by_cases hrs : s.rs = 4
    · rw [if_pos hrs]; exact ⟨h1, h2, h3, h4, h5⟩
    · rw [if_neg hrs]
      have ha : s.aborts = 0 := by
        rcases h4 with h4 | h4
        · exact h4
        · exact absurd h4.2 hrs
      refine ⟨?_, ?_, ?_, ?_, ?_⟩ <;> simp [bridgeInv, ha]
  | next =>
    rw [bstep]
    by_cases hcl : s.closed = true
    · rw [if_pos hcl]; exact ⟨h1, h2, h3, h4, h5⟩
    · rw [if_neg hcl]
      have hclf : s.closed = false := by
        cases hcv : s.closed
        · rfl
        · exact absurd hcv hcl
      cases hq : s.queue with
      | nil => exact ⟨h1, h2, h3, h4, h5⟩
      | cons i rest =>
        cases i with
        | val e => exact ⟨h1, h2, h3, h4, h5⟩
        | fin => exact bridgeInv_cleanup _ ⟨h1, h2, h3, h4, h5⟩ hclf
        | err m => exact bridgeInv_cleanup _ ⟨h1, h2, h3, h4, h5⟩ hclf
  | ret =>
    rw [bstep]
    by_cases hcl : s.closed = true
    · rw [if_pos hcl]; exact ⟨h1, h2, h3, h4, h5⟩
    · rw [if_neg hcl]
      have hclf : s.closed = false := by
        cases hcv : s.closed
        · rfl
        · exact absurd hcv hcl
      exact bridgeInv_cleanup s ⟨h1, h2, h3, h4, h5⟩ hclf

theorem bridgeInv_brun (s : Bridge) (tr : List BStep) (h : bridgeInv s) :
    bridgeInv (brun s tr) := by
  induction tr generalizing s with
  | nil => exact h
  | cons a tr ih => exact ih (bstep s a) (bridgeInv_step s a h)

/-- Once the generator is closed (and the transfer done), every further
step is a no-op: no callback fires, pulls yield nothing, teardown does not
re-run. -/
theorem closed_bstep (s : Bridge) (a : BStep) (hcl : s.closed = true)
    (hrs : s.rs = 4) : bstep s a = s := by
  cases a with
  | prog t => rw [bstep, if_pos hrs]
  | load t => rw [bstep, if_pos hrs]
  | fail m => rw [bstep, if_pos hrs]
  | next => rw [bstep, if_pos hcl]
  | ret => rw [bstep, if_pos hcl]

theorem closed_brun (s : Bridge) (tr : List BStep) (hcl : s.closed = true)
    (hrs : s.rs = 4) : brun s tr = s := by
  induction tr with
  | nil => rfl
  | cons a tr ih => rw [brun_cons, closed_bstep s a hcl hrs, ih]

theorem qVals_append (q r : List QItem) : qVals (q ++ r) = qVals q ++ qVals r := by
  unfold qVals
  rw [List.filterMap_append]

theorem qVals_map_val (xs : List StreamEvent) : qVals (xs.map QItem.val) = xs := by
  induction xs with
  | nil => rfl
  | cons x xs ih =>
    show qVals (QItem.val x :: xs.map QItem.val) = x :: xs
    unfold qVals at ih ⊢
    simp only [List.filterMap_cons]
    rw [ih]

/-- Exact event accounting of the bridge: what was delivered followed by
what is still queued is exactly what was pushed, and what was pushed is
exactly the event sequence of the framed records of the processed text. -/
def fifoInv (s : Bridge) : Prop :=
  s.delivered ++ qVals s.queue = s.pushed ∧
  s.pushed = ((drainF frBB s.procText).1).filterMap eventOfMessageA ∧
  s.buf = (drainF frBB s.procText).2

theorem fifoInv_init : fifoInv bridgeInit := by
  refine ⟨rfl, ?_, ?_⟩ <;> rfl

theorem fifoInv_cleanup (s : Bridge) (h : fifoInv s) : fifoInv (cleanup s) := by
  obtain ⟨h1, h2, h3⟩ := h
  unfold cleanup
  by_cases hg : 0 < s.rs ∧ s.rs < 4
  · rw [if_pos hg]
    refine ⟨?_, h2, h3⟩
    show s.delivered ++ qVals (s.queue ++ [QItem.fin]) = s.pushed
    rw [qVals_append]
    show s.delivered ++ (qVals s.queue ++ []) = s.pushed
    rw [List.append_nil]
    exact h1
  · rw [if_neg hg]; exact ⟨h1, h2, h3⟩

theorem fifoInv_step (s : Bridge) (a : BStep) (h : fifoInv s) :
    fifoInv (bstep s a) := by
  obtain ⟨h1, h2, h3⟩ := h
  cases a with
  | prog t =>
    rw [bstep]
    by_cases hrs : s.rs = 4
    · rw [if_pos hrs]; exact ⟨h1, h2, h3⟩
    · rw [if_neg hrs]
      have hdrain := drainF_append frBB s.procText t
      rw [← h3] at hdrain
      refine ⟨?_, ?_, ?_⟩
      · show s.delivered ++ qVals (s.queue ++ (newEvents s.buf t).1.map QItem.val) =
            s.pushed ++ (newEvents s.buf t).1
        rw [qVals_append, qVals_map_val, ← List.append_assoc, h1]
      · show s.pushed ++ (newEvents s.buf t).1 =
            ((drainF frBB (s.procText ++ t)).1).filterMap eventOfMessageA
        rw [hdrain, List.filterMap_append, ← h2]
        rfl
      · show (newEvents s.buf t).2 = (drainF frBB (s.procText ++ t)).2
        rw [hdrain]
        rfl
  | load t =>
    rw [bstep]
    by_cases hrs : s.rs = 4
    · rw [if_pos hrs]; exact ⟨h1, h2, h3⟩
    · rw [if_neg hrs]
      have hdrain := drainF_append frBB s.procText t
      rw [← h3] at hdrain
      refine ⟨?_, ?_, ?_⟩
      · show s.delivered ++
            qVals (s.queue ++ (newEvents s.buf t).1.map QItem.val ++ [QItem.fin]) =
            s.pushed ++ (newEvents s.buf t).1
        rw [qVals_append, qVals_append, qVals_map_val]
        show s.delivered ++ (qVals s.queue ++ (newEvents s.buf t).1 ++ []) =
            s.pushed ++ (newEvents s.buf t).1
        rw [List.append_nil, ← List.append_assoc, h1]
      · show s.pushed ++ (newEvents s.buf t).1 =
            ((drainF frBB (s.procText ++ t)).1).filterMap eventOfMessageA
        rw [hdrain, List.filterMap_append, ← h2]
        rfl
      · show (newEvents s.buf t).2 = (drainF frBB (s.procText ++ t)).2
        rw [hdrain]
        rfl
  | fail m =>
    rw [bstep]
    by_cases hrs : s.rs = 4
    · rw [if_pos hrs]; exact ⟨h1, h2, h3⟩
    · rw [if_neg hrs]
      refine ⟨?_, h2, h3⟩
      show s.delivered ++ qVals (s.queue ++ [QItem.err m]) = s.pushed
      rw [qVals_append]
      show s.delivered ++ (qVals s.queue ++ []) = s.pushed
      rw [List.append_nil]
      exact h1
  | next =>
    rw [bstep]
    by_cases hcl : s.closed = true
    · rw [if_pos hcl]; exact ⟨h1, h2, h3⟩
    · rw [if_neg hcl]
      cases hq : s.queue with
      | nil => exact ⟨h1, h2, h3⟩
      | cons i rest =>
        rw [hq] at h1
        cases i with
        | val e =>
          refine ⟨?_, h2, h3⟩
          show s.delivered ++ [e] ++ qVals rest = s.pushed
          rw [← h1]
          show s.delivered ++ [e] ++ qVals rest = s.delivered ++ qVals (QItem.val e :: rest)
          unfold qVals
          simp [List.filterMap_cons]
        | fin =>
          refine fifoInv_cleanup _ ⟨?_, h2, h3⟩
          show s.delivered ++ qVals rest = s.pushed
          rw [← h1]
          unfold qVals
          simp [List.filterMap_cons]
        | err m =>
          refine fifoInv_cleanup _ ⟨?_, h2, h3⟩
          show s.delivered ++ qVals rest = s.pushed
          rw [← h1]
          unfold qVals
          simp [List.filterMap_cons]
  | ret =>
    rw [bstep]
    by_cases hcl : s.closed = true
    · rw [if_pos hcl]; exact ⟨h1, h2, h3⟩
    · rw [if_neg hcl]; exact fifoInv_cleanup s ⟨h1, h2, h3⟩

theorem fifoInv_brun (s : Bridge) (tr : List BStep) (h : fifoInv s) :
    fifoInv (brun s tr) := by
  induction tr generalizing s with
  | nil => exact h
  | cons a tr ih => exact ih (bstep s a) (fifoInv_step s a h)

theorem eventFields_some (v : Js) (e : StreamEvent) (h : eventFields v = some e) :
    jsGetField v (cs "agent") = some (Js.str e.agent) ∧ e.agent ≠ [] ∧
    jsGetField v (cs "response") = some (Js.str e.response) ∧ e.response ≠ [] := by
  unfold eventFields at h
  split at h
  · rename_i a r heqa heqr
    by_cases hc : a ≠ [] ∧ r ≠ []
    · rw [if_pos hc] at h
      cases h
      exact ⟨heqa, hc.1, heqr, hc.2⟩
    · rw [if_neg hc] at h
      cases h
  · cases h

theorem validateJs_some (v : Js) (e : StreamEvent)
    (h : validateJs v = .ok (some e)) :
    jsGetField v (cs "agent") = some (Js.str e.agent) ∧ e.agent ≠ [] ∧
    jsGetField v (cs "response") = some (Js.str e.response) ∧ e.response ≠ [] := by
  unfold validateJs at h
  by_cases hn : jsIsNull v = true
  · rw [if_pos hn] at h; cases h
  · rw [if_neg hn] at h
    injection h with h
    exact eventFields_some v e h

example : (cs "overloaded") <:+: (cs "xx overloaded yy") := by decide
example : ¬ ((cs "false") <:+: (cs "HTTP error! status: 500")) := by decide

/-! ### Claims -/

theorem collect_nil_buf_bb (fs : List (List Char)) :
    collect frBB [] fs = drainF frBB fs.flatten := by
  have h := collect_join frBB [] fs rfl
  rw [h]
  rfl

theorem collect_nil_buf_nl (fs : List (List Char)) :
    collect frNl [] fs = drainF frNl fs.flatten := by
  have h := collect_join frNl [] fs rfl
  rw [h]
  rfl

/-- C1: the frame-decoding loop (double-newline framing in the XHR variant,
single-newline framing in the reader variant) emits exactly the records of
the concatenation of the raw fragments, in order; hence any two
fragmentations of the same text yield the same record sequence and the same
event sequence. -/
theorem c1_rechunking_invariance (fs gs : List (List Char))
    (h : fs.flatten = gs.flatten) :
    collect frBB [] fs = drainF frBB fs.flatten ∧
    collect frNl [] fs = drainF frNl fs.flatten ∧
    collect frBB [] fs = collect frBB [] gs ∧
    collect frNl [] fs = collect frNl [] gs ∧
    runStreamA fs = runStreamA gs ∧
    runStreamB fs = runStreamB gs := by
  refine ⟨collect_nil_buf_bb fs, collect_nil_buf_nl fs, ?_, ?_, ?_, ?_⟩
  · rw [collect_nil_buf_bb fs, collect_nil_buf_bb gs, h]
  · rw [collect_nil_buf_nl fs, collect_nil_buf_nl gs, h]
  · unfold runStreamA
    rw [collect_nil_buf_bb fs, collect_nil_buf_bb gs, h]
  · unfold runStreamB
    rw [collect_nil_buf_nl fs, collect_nil_buf_nl gs, h]

theorem c1_rechunking_invariance_witness :
    (([cs "data: \x7b\"agent\":\"A\"", cs ",\"response\":\"hi\"\x7d\n\nx"] : List (List Char)).flatten =
      ([cs "data: ", cs "\x7b\"agent\":\"A\",\"response\":\"hi\"\x7d", cs "\n", cs "\nx"] : List (List Char)).flatten) ∧
    runStreamA [cs "data: \x7b\"agent\":\"A\"", cs ",\"response\":\"hi\"\x7d\n\nx"] =
      runStreamA [cs "data: ", cs "\x7b\"agent\":\"A\",\"response\":\"hi\"\x7d", cs "\n", cs "\nx"] :=
  ⟨by decide,
   (c1_rechunking_invariance
     [cs "data: \x7b\"agent\":\"A\"", cs ",\"response\":\"hi\"\x7d\n\nx"]
     [cs "data: ", cs "\x7b\"agent\":\"A\",\"response\":\"hi\"\x7d", cs "\n", cs "\nx"]
     (by decide)).2.2.2.2.1⟩

/-- C2 counterexample: when the transport completes while the buffer still
holds a well-formed record that never received its closing boundary, the
XHR variant emits nothing (its `onload` only drains complete `\n\n`-framed
messages), while the reader variant flushes it — refuting the claim that
*both* variants treat the leftover as one final record. -/
theorem c2_counterexample :
    runStreamA [cs "data: \x7b\"agent\":\"A\",\"response\":\"hi\"\x7d"] = [] ∧
    (collect frBB [] [cs "data: \x7b\"agent\":\"A\",\"response\":\"hi\"\x7d"]).2 =
      cs "data: \x7b\"agent\":\"A\",\"response\":\"hi\"\x7d" ∧
    runStreamB [cs "data: \x7b\"agent\":\"A\",\"response\":\"hi\"\x7d"] =
      [StreamEvent.mk (cs "A") (cs "hi")] := by
  refine ⟨by rfl, by rfl, by rfl⟩

/-- C2 (amended): on end-of-stream the reader variant treats non-empty
leftover buffered content as one final record, yielding its event (when
valid) as the last one; the XHR variant yields events only from complete
boundary-terminated messages of the concatenation, dropping the leftover. -/
theorem c2_flush_on_close (frags : List (List Char)) (e : StreamEvent)
    (hne : (collect frNl [] frags).2 ≠ [])
    (hp : parseChunkB (collect frNl [] frags).2 = some e) :
    runStreamB frags = ((collect frNl [] frags).1).filterMap lineEventB ++ [e] ∧
    runStreamA frags = ((drainF frBB frags.flatten).1).filterMap eventOfMessageA := by
  constructor
  · show ((collect frNl [] frags).1).filterMap lineEventB ++
        (if (collect frNl [] frags).2 = [] then []
         else (parseChunkB (collect frNl [] frags).2).toList) = _
    rw [if_neg hne, hp]
    rfl
  · show ((collect frBB [] frags).1).filterMap eventOfMessageA = _
    rw [collect_nil_buf_bb frags]

theorem c2_flush_on_close_witness :
    ((collect frNl [] [cs "data: \x7b\"agent\":\"B\",\"response\":\"one\"\x7d\ndata: \x7b\"agent\":\"B\",\"response\":\"two\"\x7d"]).2 ≠ [] ∧
     runStreamB [cs "data: \x7b\"agent\":\"B\",\"response\":\"one\"\x7d\ndata: \x7b\"agent\":\"B\",\"response\":\"two\"\x7d"] =
       [StreamEvent.mk (cs "B") (cs "one")] ++ [StreamEvent.mk (cs "B") (cs "two")]) :=
  ⟨by decide,
   by
    have h := (c2_flush_on_close
      [cs "data: \x7b\"agent\":\"B\",\"response\":\"one\"\x7d\ndata: \x7b\"agent\":\"B\",\"response\":\"two\"\x7d"]
      (StreamEvent.mk (cs "B") (cs "two")) (by decide) (by rfl)).1
    rw [h]
    rfl⟩

theorem startsWithL_append (x p : List Char) : startsWithL (x ++ p) x = true := by
  induction x with
  | nil => simp [startsWithL]
  | cons c cr ih => simp [startsWithL, ih]

/-- C3 counterexample: a payload line with the no-space marker `data:`
directly followed by the JSON text yields *no* event in either variant
(the reader variant only strips the six-character `"data: "`, so the line
reaches `JSON.parse` unstripped; the XHR variant matches `data:` but then
drops six characters, losing the payload's first character), while the
spaced form yields the event — refuting the claim that the two forms yield
the same event. -/
theorem c3_counterexample :
    parseChunkB (cs "data:\x7b\"agent\":\"A\",\"response\":\"hi\"\x7d") = none ∧
    eventOfMessageA (cs "data:\x7b\"agent\":\"A\",\"response\":\"hi\"\x7d") = none ∧
    parseChunkB (cs "data: \x7b\"agent\":\"A\",\"response\":\"hi\"\x7d") =
      some (StreamEvent.mk (cs "A") (cs "hi")) := by
  refine ⟨by rfl, by rfl, by rfl⟩

/-- C3 (amended): the decoder strips exactly the spaced marker `"data: "`
before handing the remaining (trimmed) text to the parser, and the concrete
fragment pair `["data: \x7b\"agent\":\"A\"", ",\"response\":\"hi\"\x7d\n\n"]`
yields exactly the one event `⟨A, hi⟩` in both variants; the no-space form
is not stripped correctly and yields no event (see the counterexample). -/
theorem c3_prefix_stripping :
    runStreamA [cs "data: \x7b\"agent\":\"A\"", cs ",\"response\":\"hi\"\x7d\n\n"] =
      [StreamEvent.mk (cs "A") (cs "hi")] ∧
    runStreamB [cs "data: \x7b\"agent\":\"A\"", cs ",\"response\":\"hi\"\x7d\n\n"] =
      [StreamEvent.mk (cs "A") (cs "hi")] ∧
    (∀ p : List Char, parseChunkB (cs "data: " ++ p) = parsePayloadB (trimJs p)) := by
  refine ⟨by rfl, by rfl, ?_⟩
  intro p
  unfold parseChunkB strippedOf
  rw [startsWithL_append (cs "data: ") p]
  simp only [if_true]
  have hd : (cs "data: " ++ p).drop 6 = p := by
    rw [show (6 : Nat) = (cs "data: ").length from by decide]
    exact List.drop_left (cs "data: ") p
  rw [hd]

/-- C4: a record parses to a StreamEvent only if its (prefix-stripped) text
deserializes to an object whose `agent` and `response` members are
non-empty strings; a thrown parse/validation error is caught and yields no
event; and a record yielding no event is simply skipped — the events of the
surrounding lines are unaffected. -/
theorem c4_validation :
    (∀ line e, parseChunkB line = some e →
      ∃ v, jsonParse (strippedOf line) = Except.ok v ∧
        jsGetField v (cs "agent") = some (Js.str e.agent) ∧ e.agent ≠ [] ∧
        jsGetField v (cs "response") = some (Js.str e.response) ∧ e.response ≠ []) ∧
    (∀ t m, evalChunk t = Except.error m → catchChunk t = none) ∧
    (∀ pre post bad, lineEventB bad = none →
      (pre ++ bad :: post).filterMap lineEventB = (pre ++ post).filterMap lineEventB) := by
  refine ⟨?_, ?_, ?_⟩
  · intro line e h
    unfold parseChunkB parsePayloadB at h
    by_cases hskip : strippedOf line = [] ∨ strippedOf line = cs "[DONE]"
    · rw [if_pos hskip] at h; cases h
    · rw [if_neg hskip] at h
      unfold catchChunk at h
      cases hev : evalChunk (strippedOf line) with
      | error m => rw [hev] at h; cases h
      | ok r =>
        rw [hev] at h
        change r = some e at h
        subst h
        unfold evalChunk at hev
        cases hjp : jsonParse (strippedOf line) with
        | error m => rw [hjp] at hev; cases hev
        | ok v =>
          rw [hjp] at hev
          exact ⟨v, rfl, validateJs_some v e hev⟩
  · intro t m h
    unfold catchChunk
    rw [h]
  · intro pre post bad h
    simp [List.filterMap_append, List.filterMap_cons, h]

theorem c4_validation_witness :
    (∃ v, jsonParse (strippedOf (cs "\x7b\"agent\":\"A\",\"response\":\"hi\"\x7d")) = Except.ok v ∧
      jsGetField v (cs "agent") =
        some (Js.str (StreamEvent.mk (cs "A") (cs "hi")).agent) ∧
      (StreamEvent.mk (cs "A") (cs "hi")).agent ≠ [] ∧
      jsGetField v (cs "response") =
        some (Js.str (StreamEvent.mk (cs "A") (cs "hi")).response) ∧
      (StreamEvent.mk (cs "A") (cs "hi")).response ≠ []) ∧
    catchChunk (cs "\x7b") = none ∧
    ([cs "data: \x7b\"agent\":\"A\",\"response\":\"one\"\x7d"] ++
      cs "oops" :: [cs "data: \x7b\"agent\":\"A\",\"response\":\"two\"\x7d"]).filterMap lineEventB =
    ([cs "data: \x7b\"agent\":\"A\",\"response\":\"one\"\x7d"] ++
      [cs "data: \x7b\"agent\":\"A\",\"response\":\"two\"\x7d"]).filterMap lineEventB :=
  ⟨c4_validation.1 (cs "\x7b\"agent\":\"A\",\"response\":\"hi\"\x7d")
      (StreamEvent.mk (cs "A") (cs "hi")) (by rfl),
   c4_validation.2.1 (cs "\x7b") (cs "unexpected end of JSON input") (by rfl),
   c4_validation.2.2 [cs "data: \x7b\"agent\":\"A\",\"response\":\"one\"\x7d"]
      [cs "data: \x7b\"agent\":\"A\",\"response\":\"two\"\x7d"] (cs "oops") (by rfl)⟩

/-- C8 counterexample: in the reader variant a line *without* any `data:`
marker is not ignored — `parseChunk` passes it unstripped to `JSON.parse`,
so a bare well-formed event object produces a StreamEvent, which also flows
through the whole stream pipeline; this refutes the claim that unprefixed
lines yield no event in both variants. -/
theorem c8_counterexample :
    startsWithL (cs "\x7b\"agent\":\"A\",\"response\":\"hi\"\x7d") (cs "data:") = false ∧
    parseChunkB (cs "\x7b\"agent\":\"A\",\"response\":\"hi\"\x7d") =
      some (StreamEvent.mk (cs "A") (cs "hi")) ∧
    runStreamB [cs "\x7b\"agent\":\"A\",\"response\":\"hi\"\x7d\n"] =
      [StreamEvent.mk (cs "A") (cs "hi")] := by
  refine ⟨by rfl, by rfl, by rfl⟩

/-- C8 (amended): the XHR variant ignores messages none of whose lines
start with `data:` (no event); the reader variant does not ignore an
unprefixed line but hands it unchanged to the parser, producing an event
exactly when the bare line parses as a valid event object. -/
theorem c8_unprefixed_lines (msg l : List Char) :
    (dataLineA msg = none → eventOfMessageA msg = none) ∧
    (startsWithL l (cs "data: ") = false → parseChunkB l = parsePayloadB l) := by
  constructor
  · intro h
    unfold eventOfMessageA
    rw [h]
  · intro h
    unfold parseChunkB strippedOf
    rw [h]
    simp

theorem c8_unprefixed_lines_witness :
    eventOfMessageA (cs "hello") = none ∧
    parseChunkB (cs "\x7b\"agent\":\"B\",\"response\":\"y\"\x7d") =
      parsePayloadB (cs "\x7b\"agent\":\"B\",\"response\":\"y\"\x7d") :=
  ⟨(c8_unprefixed_lines (cs "hello") []).1 (by rfl),
   (c8_unprefixed_lines [] (cs "\x7b\"agent\":\"B\",\"response\":\"y\"\x7d")).2 (by rfl)⟩

/-- C10: the record parser is total — every input produces either a valid
event or `none`; the internal try/catch means no exception reaches the
caller (`parseChunkTryB` never returns an error), including on the empty
line, the `[DONE]` sentinel, non-JSON text, JSON of the wrong shape, and
`null` (whose property access throws internally and is absorbed). -/
theorem c10_parser_total :
    (∀ line, parseChunkTryB line = Except.ok (parseChunkB line)) ∧
    parseChunkB (cs "") = none ∧
    parseChunkB (cs "[DONE]") = none ∧
    parseChunkB (cs "data: [DONE]") = none ∧
    parseChunkB (cs "not json") = none ∧
    parseChunkB (cs "\x7b\"agent\":\"A\"\x7d") = none ∧
    parseChunkB (cs "\x7b\"agent\":1,\"response\":\"x\"\x7d") = none ∧
    parseChunkB (cs "null") = none ∧
    (∃ m, evalChunk (cs "null") = Except.error m) ∧
    eventOfMessageA (cs "data: null") = none := by
  refine ⟨?_, by rfl, by rfl, by rfl, by rfl, by rfl, by rfl, by rfl, ⟨_, by rfl⟩, by rfl⟩
  intro line
  simp only [parseChunkTryB, parseChunkB]
  by_cases hskip : strippedOf line = [] ∨ strippedOf line = cs "[DONE]"
  · rw [if_pos hskip]
    unfold parsePayloadB
    rw [if_pos hskip]
  · rw [if_neg hskip]
    unfold parsePayloadB catchChunk
    rw [if_neg hskip]
    cases h : evalChunk (strippedOf line) with
    | ok r => rfl
    | error m => rfl

/-- C6 counterexample: the error body `\x7b"detail":false\x7d` parses as
JSON **with** a `detail` field, yet the rejection message is the generic
fallback and does not contain the stringified detail — because
`errorData?.detail || fallback` discards every *falsy* detail value.  This
refutes the claim for bodies whose `detail` field is falsy. -/
theorem c6_counterexample :
    runQueryModel false 500 (cs "\x7b\"detail\":false\x7d") =
      Except.error (cs "The Force is disturbed. API request failed: HTTP error! status: 500") ∧
    detailJs (cs "\x7b\"detail\":false\x7d") = some (Js.bool false) ∧
    ¬ (cs "false" <:+:
        cs "The Force is disturbed. API request failed: HTTP error! status: 500") := by
  refine ⟨by rfl, by rfl, by decide⟩

/-- C6 (amended): on both the single-shot and streaming request paths, a
non-success response rejects with a message containing the `detail` string
when the body parses as JSON with a *truthy* `detail` field holding a
non-empty string, and containing the generic fallback
`HTTP error! status: <code>` when the body does not parse, lacks `detail`,
or its `detail` is falsy. -/
theorem c6_error_detail (status : Nat) (body d : List Char) :
    (detailJs body = some (Js.str d) → d ≠ [] →
      runQueryModel false status body =
        Except.error (cs "The Force is disturbed. API request failed: " ++ d) ∧
      d <:+: invokeErrMsg status body ∧
      streamOpenModel false true status body =
        Except.error (cs "The Force is disturbed. API stream request failed: " ++ d) ∧
      d <:+: streamErrMsg status body) ∧
    ((∀ v, detailJs body = some v → jsTruthy v = false) →
      invokeErrMsg status body =
        cs "The Force is disturbed. API request failed: " ++ fallbackMsg status ∧
      streamErrMsg status body =
        cs "The Force is disturbed. API stream request failed: " ++ fallbackMsg status ∧
      fallbackMsg status <:+: invokeErrMsg status body ∧
      fallbackMsg status <:+: streamErrMsg status body) := by
  constructor
  · intro hd hne
    have htruthy : jsTruthy (Js.str d) = true := by
      cases d with
      | nil => exact absurd rfl hne
      | cons c r => rfl
    have hdt : detailText status body = d := by
      unfold detailText
      rw [hd]
      show (if jsTruthy (Js.str d) then jsToText (Js.str d) else fallbackMsg status) = d
      rw [htruthy]
      simp only [if_true]
      rfl
    refine ⟨?_, ?_, ?_, ?_⟩
    · show Except.error (invokeErrMsg status body) = _
      rw [invokeErrMsg, hdt]
    · exact ⟨cs "The Force is disturbed. API request failed: ", [],
        by rw [List.append_nil, invokeErrMsg, hdt]⟩
    · show Except.error (streamErrMsg status body) = _
      rw [streamErrMsg, hdt]
    · exact ⟨cs "The Force is disturbed. API stream request failed: ", [],
        by rw [List.append_nil, streamErrMsg, hdt]⟩
  · intro hf
    have hdt : detailText status body = fallbackMsg status := by
      unfold detailText
      cases hd : detailJs body with
      | none => rfl
      | some v =>
        have hfv := hf v hd
        show (if jsTruthy v then jsToText v else fallbackMsg status) = fallbackMsg status
        rw [hfv]
        simp
    refine ⟨?_, ?_, ?_, ?_⟩
    · rw [invokeErrMsg, hdt]
    · rw [streamErrMsg, hdt]
    · exact ⟨cs "The Force is disturbed. API request failed: ", [],
        by rw [List.append_nil, invokeErrMsg, hdt]⟩
    · exact ⟨cs "The Force is disturbed. API stream request failed: ", [],
        by rw [List.append_nil, streamErrMsg, hdt]⟩

theorem c6_error_detail_witness :
    (cs "overloaded" <:+: invokeErrMsg 500 (cs "\x7b\"detail\":\"overloaded\"\x7d")) ∧
    runQueryModel false 500 (cs "\x7b\"detail\":\"overloaded\"\x7d") =
      Except.error (cs "The Force is disturbed. API request failed: " ++ cs "overloaded") ∧
    (fallbackMsg 404 <:+: invokeErrMsg 404 (cs "no json here")) := by
  have h1 := (c6_error_detail 500 (cs "\x7b\"detail\":\"overloaded\"\x7d") (cs "overloaded")).1
    (by rfl) (by decide)
  have h2 := (c6_error_detail 404 (cs "no json here") []).2
    (by
      intro v hv
      rw [show detailJs (cs "no json here") = none from rfl] at hv
      cases hv)
  exact ⟨h1.2.1, h1.1, h2.2.2.1⟩

/-- C7: on a successful single-shot response, `runQuery` resolves to the
string at `output.content` whenever the body parses to a value with a
string there (in particular `\x7b"output":\x7b"content":"42"\x7d\x7d`
resolves to `"42"`), and rejects with an error when `output.content` is
absent or not a string. -/
theorem c7_output_content (status : Nat) (body : List Char) (v : Js) (s : List Char) :
    (jsonParse body = Except.ok v → outputContent v = some (Js.str s) →
      runQueryModel true status body = Except.ok s) ∧
    (jsonParse body = Except.ok v → (∀ t, outputContent v ≠ some (Js.str t)) →
      ∃ m, runQueryModel true status body = Except.error m) ∧
    runQueryModel true status (cs "\x7b\"output\":\x7b\"content\":\"42\"\x7d\x7d") =
      Except.ok (cs "42") := by
  refine ⟨?_, ?_, by rfl⟩
  · intro hp hc
    unfold runQueryModel
    rw [if_pos rfl]
    simp only [hp, hc]
  · intro hp hc
    unfold runQueryModel
    rw [if_pos rfl]
    simp only [hp]
    cases ho : outputContent v with
    | none => exact ⟨_, rfl⟩
    | some w =>
      cases w with
      | str t => exact absurd ho (hc t)
      | null => exact ⟨_, rfl⟩
      | bool b => exact ⟨_, rfl⟩
      | num lex => exact ⟨_, rfl⟩
      | arr xs => exact ⟨_, rfl⟩
      | obj kvs => exact ⟨_, rfl⟩

theorem c7_output_content_witness :
    runQueryModel true 200 (cs "\x7b\"output\":\x7b\"content\":\"ok\"\x7d\x7d") =
      Except.ok (cs "ok") ∧
    (∃ m, runQueryModel true 200 (cs "\x7b\"output\":42\x7d") = Except.error m) := by
  constructor
  · exact (c7_output_content 200 (cs "\x7b\"output\":\x7b\"content\":\"ok\"\x7d\x7d")
      (Js.obj [(cs "output", Js.obj [(cs "content", Js.str (cs "ok"))])]) (cs "ok")).1
      (by rfl) (by rfl)
  · exact (c7_output_content 200 (cs "\x7b\"output\":42\x7d")
      (Js.obj [(cs "output", Js.num (cs "42"))]) []).2.1 (by rfl)
      (by
        intro t h
        rw [show outputContent (Js.obj [(cs "output", Js.num (cs "42"))]) = none from rfl] at h
        cases h)

/-- C5 counterexample: the consumer stops after the first of two yielded
events while one more event is already buffered, but the transfer has
already completed (`onload` ran, `readyState = 4`), so the `finally` guard
`readyState > 0 && readyState < 4` skips `xhr.abort()` — the transport is
cancelled *zero* times, refuting "cancelled exactly once" for every early
termination.  (No further event is delivered: the buffered one stays
undelivered in the queue.) -/
theorem c5_counterexample :
    (brun bridgeInit [BStep.load (cs "data: \x7b\"agent\":\"A\",\"response\":\"x\"\x7d\n\ndata: \x7b\"agent\":\"A\",\"response\":\"y\"\x7d\n\n"), BStep.next, BStep.ret]).delivered =
      [StreamEvent.mk (cs "A") (cs "x")] ∧
    (brun bridgeInit [BStep.load (cs "data: \x7b\"agent\":\"A\",\"response\":\"x\"\x7d\n\ndata: \x7b\"agent\":\"A\",\"response\":\"y\"\x7d\n\n"), BStep.next, BStep.ret]).closed = true ∧
    qVals (brun bridgeInit [BStep.load (cs "data: \x7b\"agent\":\"A\",\"response\":\"x\"\x7d\n\ndata: \x7b\"agent\":\"A\",\"response\":\"y\"\x7d\n\n"), BStep.next, BStep.ret]).queue =
      [StreamEvent.mk (cs "A") (cs "y")] ∧
    (brun bridgeInit [BStep.load (cs "data: \x7b\"agent\":\"A\",\"response\":\"x\"\x7d\n\ndata: \x7b\"agent\":\"A\",\"response\":\"y\"\x7d\n\n"), BStep.next, BStep.ret]).aborts = 0 := by
  refine ⟨by rfl, by rfl, by rfl, by rfl⟩

/-- C5 (amended): teardown of the XHR bridge is idempotent and delivers
nothing further — over every trace, `abort` runs at most once; once the
generator is closed, any further steps (callbacks, pulls, repeated cleanup)
leave the state unchanged, so no event is ever delivered after termination;
and terminating early while the transport is still active (readyState
strictly between 0 and 4) aborts it exactly once. -/
theorem c5_teardown (tr more : List BStep) :
    (brun bridgeInit tr).aborts ≤ 1 ∧
    ((brun bridgeInit tr).closed = true →
      brun bridgeInit (tr ++ more) = brun bridgeInit tr) ∧
    ((brun bridgeInit tr).closed = false → 0 < (brun bridgeInit tr).rs →
      (brun bridgeInit tr).rs < 4 →
      (brun bridgeInit (tr ++ [BStep.ret])).aborts = 1 ∧
      (brun bridgeInit tr).aborts = 0) := by
  have hinv := bridgeInv_brun bridgeInit tr bridgeInv_init
  obtain ⟨h1, h2, h3, h4, h5⟩ := hinv
  refine ⟨?_, ?_, ?_⟩
  · rcases h4 with h | h <;> omega
  · intro hc
    rw [brun_append]
    exact closed_brun _ more hc (h3 hc)
  · intro hcf h0 hlt
    have ha : (brun bridgeInit tr).aborts = 0 := by
      by_contra hne
      rw [h5 hne] at hcf
      cases hcf
    rw [brun_append]
    refine ⟨?_, ha⟩
    show (bstep (brun bridgeInit tr) BStep.ret).aborts = 1
    show (if (brun bridgeInit tr).closed = true then brun bridgeInit tr
          else cleanup (brun bridgeInit tr)).aborts = 1
    rw [hcf]
    simp only [Bool.false_eq_true, if_false]
    unfold cleanup
    rw [if_pos ⟨h0, hlt⟩]
    show (brun bridgeInit tr).aborts + 1 = 1
    omega

theorem c5_teardown_witness :
    ((brun bridgeInit [BStep.load (cs "x"), BStep.next]).closed = true ∧
     brun bridgeInit ([BStep.load (cs "x"), BStep.next] ++
         [BStep.prog (cs "y"), BStep.next, BStep.ret]) =
       brun bridgeInit [BStep.load (cs "x"), BStep.next]) ∧
    ((brun bridgeInit [BStep.prog (cs "x")]).closed = false ∧
     (brun bridgeInit ([BStep.prog (cs "x")] ++ [BStep.ret])).aborts = 1) := by
  constructor
  · exact ⟨by decide,
      (c5_teardown [BStep.load (cs "x"), BStep.next]
        [BStep.prog (cs "y"), BStep.next, BStep.ret]).2.1 (by decide)⟩
  · exact ⟨by decide,
      ((c5_teardown [BStep.prog (cs "x")] []).2.2 (by decide) (by decide) (by decide)).1⟩

/-- C9: over every trace of the XHR bridge, the events delivered to the
consumer followed by the events still queued are exactly the events pushed
by the producer callbacks (tail-append by `enqueueAndSignal`, head-removal
by the generator — FIFO, no reordering, no coalescing), and the pushed
sequence is exactly the per-record event sequence of the framed records of
the processed text, in framing order; in particular the delivered sequence
is always a prefix of the pushed sequence. -/
theorem c9_fifo_order (tr : List BStep) :
    (brun bridgeInit tr).delivered ++ qVals (brun bridgeInit tr).queue =
      (brun bridgeInit tr).pushed ∧
    (brun bridgeInit tr).pushed =
      ((drainF frBB (brun bridgeInit tr).procText).1).filterMap eventOfMessageA ∧
    ∃ rest, (brun bridgeInit tr).delivered ++ rest = (brun bridgeInit tr).pushed := by
  have h := fifoInv_brun bridgeInit tr fifoInv_init
  exact ⟨h.1, h.2.1, ⟨qVals (brun bridgeInit tr).queue, h.1⟩⟩
